import Mathlib

/-!
Verification of the Connect-N alpha-beta agent (`ConnectN/alpha_beta_agent.py`).

The agent code itself (`heuristics`, `maxValue`, `minValue`, `get_successors`,
`makeMove`) is embedded directly from the source.  The board/rules engine
(`board.py`) is not part of the sources; the spec treats it as an external
collaborator specified only at its interface (§6), so the board operations
below are modelled from the words of the spec and are marked as such.
-/

/-- Modelled from the spec: a BoardState of the external rules engine (§3, §6).
`board` is the grid of cell markers, indexed `board[j][i]` with `j` the row
(0 = bottom) and `i` the column; `0` is empty, `1`/`2` are the player markers.
`w`/`h` are the width and height, `n` the target connection length, and
`player` the marker of the player to move next. -/
structure Board where
  board : List (List Nat)
  w : Nat
  h : Nat
  n : Nat
  player : Nat
deriving DecidableEq, Repr

/-- Cell lookup `board[j][i]`, total with default `0` (empty). -/
def cellAt (brd : Board) (j i : Nat) : Nat :=
  (brd.board.getD j []).getD i 0

/-- Signed-coordinate cell lookup used by the line-window scans. -/
def cellAtI (brd : Board) (x y : Int) : Nat :=
  if 0 ≤ x ∧ 0 ≤ y then cellAt brd y.toNat x.toNat else 0

/-- Whether the signed coordinate (x, y) lies on the grid. -/
def inB (brd : Board) (x y : Int) : Bool :=
  decide (0 ≤ x ∧ x < brd.w ∧ 0 ≤ y ∧ y < brd.h)

/-- The four line directions of a connection game: horizontal, vertical and
the two diagonals. -/
def dirs : List (Int × Int) := [(1, 0), (0, 1), (1, 1), (1, -1)]

/-- Whether the `n`-cell window starting at (x, y) in direction (dx, dy) lies
entirely on the grid. -/
def windowInB (brd : Board) (x y dx dy : Int) : Bool :=
  (List.range brd.n).all fun k => inB brd (x + k * dx) (y + k * dy)

/-- Whether every cell of the `n`-cell window starting at (x, y) in direction
(dx, dy) is empty or carries the marker `p`. -/
def windowCompatible (brd : Board) (x y dx dy : Int) (p : Nat) : Bool :=
  (List.range brd.n).all fun k =>
    cellAtI brd (x + k * dx) (y + k * dy) == 0 ||
    cellAtI brd (x + k * dx) (y + k * dy) == p

/-- Modelled from the spec: a still-completable line window — an in-bounds
window of the target connection length all of whose cells are empty or belong
to one single player (§4.2 "still completable (not blocked on all sides)"). -/
def goodWindow (brd : Board) (x y dx dy : Int) : Bool :=
  windowInB brd x y dx dy &&
    (windowCompatible brd x y dx dy 1 || windowCompatible brd x y dx dy 2)

/-- Modelled from the spec: `completableLineAt(x, y)` of the board collaborator
(§6) — whether the cell at (x, y) participates in a still-completable line of
the target connection length. -/
def is_any_line_at (brd : Board) (x y : Nat) : Bool :=
  dirs.any fun d => (List.range brd.n).any fun k =>
    goodWindow brd ((x : Int) - k * d.1) ((y : Int) - k * d.2) d.1 d.2

/-- Modelled from the spec: a completed line of the target length starting at
cell (x, y): the cell is occupied and some in-bounds window from it consists
entirely of its marker. Used by the outcome query (§6). -/
def lineStartsAt (brd : Board) (x y : Nat) : Bool :=
  (cellAt brd y x != 0) &&
    dirs.any fun d =>
      windowInB brd (x : Int) (y : Int) d.1 d.2 &&
        (List.range brd.n).all fun k =>
          cellAtI brd ((x : Int) + k * d.1) ((y : Int) + k * d.2) == cellAt brd y x

/-- All grid positions (column, row), scanned column-major. -/
def positions (brd : Board) : List (Nat × Nat) :=
  (List.range brd.w).flatMap fun x => (List.range brd.h).map fun y => (x, y)

/-- Modelled from the spec: `freeColumns()` of the board collaborator (§6) —
the non-full columns in ascending column-index order. -/
def Board.free_cols (brd : Board) : List Nat :=
  (List.range brd.w).filter fun i =>
    (List.range brd.h).any fun j => cellAt brd j i == 0

/-- Modelled from the spec: `outcome()` of the board collaborator (§6) — the
marker of the first cell (in scan order) starting a completed line of the
target length; `3` for a draw (no free column), `0` while undecided. -/
def Board.get_outcome (brd : Board) : Nat :=
  match (positions brd).find? (fun pr => lineStartsAt brd pr.1 pr.2) with
  | some pr => cellAt brd pr.2 pr.1
  | none => if brd.free_cols = [] then 3 else 0

/-- Grid update `g[j][i] := v`, total (out-of-range indices leave `g` alone). -/
def setCell (g : List (List Nat)) (j i v : Nat) : List (List Nat) :=
  g.set j ((g.getD j []).set i v)

/-- Modelled from the spec: `dropToken(column)` of the board collaborator (§6)
— places the token of the mover in the lowest open cell of the column, then
advances the player to move to the opponent.  Undefined on a full column; the
model then just flips the player, but the agent only calls it on free
columns. -/
def Board.add_token (brd : Board) (col : Nat) : Board :=
  match (List.range brd.h).find? (fun j => cellAt brd j col == 0) with
  | some j =>
      { brd with
        board := setCell brd.board j col brd.player,
        player := if brd.player = 1 then 2 else 1 }
  | none => { brd with player := if brd.player = 1 then 2 else 1 }

/-- Modelled from the spec: `clone()` of the board collaborator (§6) — an
independent deep copy.  In this pure embedding values are immutable, so the
clone is the value itself. -/
def Board.copy (brd : Board) : Board := brd

/-- Per-cell contribution of the positional scan of `heuristics` (source lines
55-68): occupied cells on a still-completable line score `-5` for the
opponent and `+1` for the searching player; everything else scores `0`. -/
def heurCell (brd : Board) (me opponent : Nat) (i j : Nat) : Int :=
  if cellAt brd j i ≠ 0 then
    if is_any_line_at brd i j then
      if cellAt brd j i = opponent then -5
      else if cellAt brd j i = me then 1
      else 0
    else 0
  else 0

/-- The `severity` accumulation loop of `heuristics`: columns outer, rows
inner, starting from `0`. -/
def severityLoop (brd : Board) (me opponent : Nat) : Int :=
  (List.range brd.w).foldl
    (fun acc i =>
      (List.range brd.h).foldl (fun acc2 j => acc2 + heurCell brd me opponent i j) acc)
    0

/-- `AlphaBetaAgent.heuristics` from the source: win/loss sentinel checks
first, then the positional `severity` scan. -/
def heuristics (brd : Board) (player : Nat) : Int :=
  let me := if player = 1 then 1 else 2
  let opponent := if player = 1 then 2 else 1
  if brd.get_outcome = me ∧ brd.player = opponent then 99999999
  else if brd.get_outcome = opponent ∧ brd.player = me then -99999999
  else severityLoop brd me opponent

/-- `AlphaBetaAgent.get_successors` from the source: one clone per free
column, in the (ascending) order of the collaborator, with a token added. -/
def get_successors (brd : Board) : List (Board × Nat) :=
  let freecols := brd.free_cols
  if freecols = [] then []
  else freecols.map fun col => (brd.copy.add_token col, col)


/-- The successor loop of `maxValue` (source lines 83-91), abstracted over the
recursive call `recMin b alpha beta` (which is `minValue` at depth `n - 1`
with the root player passed down unchanged): `bestMove` and `bestBoard` are
updated on a strictly larger score, the loop breaks once `bestMove >= beta`,
and `alpha` is raised to `bestMove` whenever `bestMove >= alpha`. -/
def maxLoop (recMin : Board → Int → Int → Option (Board × Nat) × Int) :
    List (Board × Nat) → Int → Int → Int → Option (Board × Nat) →
    Option (Board × Nat) × Int
  | [], _alpha, _beta, bestMove, bestBoard => (bestBoard, bestMove)
  | s :: rest, alpha, beta, bestMove, bestBoard =>
    let r := recMin s.1 alpha beta
    let bestMove2 := if r.2 > bestMove then r.2 else bestMove
    let bestBoard2 := if r.2 > bestMove then some s else bestBoard
    if bestMove2 ≥ beta then (bestBoard2, bestMove2)
    else
      maxLoop recMin rest (if bestMove2 ≥ alpha then bestMove2 else alpha) beta
        bestMove2 bestBoard2

/-- The successor loop of `minValue` (source lines 105-113), abstracted over
the recursive call `recMax b alpha beta` (which is `maxValue` at depth `n - 1`
with the root player passed down unchanged): `worstMove` and `worstBoard` are
updated on a strictly smaller score, the loop breaks once `worstMove <= beta`,
and `alpha` is overwritten with `worstMove` whenever `worstMove <= alpha`
(the comparisons of the source, kept exactly as written). -/
def minLoop (recMax : Board → Int → Int → Option (Board × Nat) × Int) :
    List (Board × Nat) → Int → Int → Int → Option (Board × Nat) →
    Option (Board × Nat) × Int
  | [], _alpha, _beta, worstMove, worstBoard => (worstBoard, worstMove)
  | s :: rest, alpha, beta, worstMove, worstBoard =>
    let r := recMax s.1 alpha beta
    let worstMove2 := if r.2 < worstMove then r.2 else worstMove
    let worstBoard2 := if r.2 < worstMove then some s else worstBoard
    if worstMove2 ≤ beta then (worstBoard2, worstMove2)
    else
      minLoop recMax rest (if worstMove2 ≤ alpha then worstMove2 else alpha) beta
        worstMove2 worstBoard2

mutual
/-- `AlphaBetaAgent.maxValue` from the source (lines 74-92): the terminal
condition `n == 0` returns `(None, heuristics(brd, player))`; otherwise the
successor loop runs with `minValue` at depth `n - 1` as the recursive call. -/
def maxValue : Board → Nat → Int → Int → Nat → Option (Board × Nat) × Int
  | brd, 0, _alpha, _beta, player => (none, heuristics brd player)
  | brd, m + 1, alpha, beta, player =>
      maxLoop (fun b a bb => minValue b m a bb player) (get_successors brd)
        alpha beta (-999999999) none

/-- `AlphaBetaAgent.minValue` from the source (lines 96-114): the terminal
condition `n == 0` returns `(None, heuristics(brd, player))`; otherwise the
successor loop runs with `maxValue` at depth `n - 1` as the recursive call. -/
def minValue : Board → Nat → Int → Int → Nat → Option (Board × Nat) × Int
  | brd, 0, _alpha, _beta, player => (none, heuristics brd player)
  | brd, m + 1, alpha, beta, player =>
      minLoop (fun b a bb => maxValue b m a bb player) (get_successors brd)
        alpha beta 999999999 none
end

/-- Number of successors the `minValue` loop examines before returning,
following exactly the control flow of `minLoop`. -/
def minValueItersLoop (recMax : Board → Int → Int → Option (Board × Nat) × Int) :
    List (Board × Nat) → Int → Int → Int → Nat
  | [], _alpha, _beta, _worstMove => 0
  | s :: rest, alpha, beta, worstMove =>
    let r := recMax s.1 alpha beta
    let worstMove2 := if r.2 < worstMove then r.2 else worstMove
    if worstMove2 ≤ beta then 1
    else
      1 + minValueItersLoop recMax rest
            (if worstMove2 ≤ alpha then worstMove2 else alpha) beta worstMove2

/-- Number of successors a call `minValue brd nn alpha beta player` examines. -/
def minValueIters (brd : Board) (nn : Nat) (alpha beta : Int) (player : Nat) : Nat :=
  match nn with
  | 0 => 0
  | m + 1 =>
      minValueItersLoop (fun b a bb => maxValue b m a bb player)
        (get_successors brd) alpha beta 999999999

/-- The depth loop of `AlphaBetaAgent.makeMove` (source lines 157-177) over the
remaining list of depth indices.  The state is `bestSeverity` and the
`bestMove` variable, which in the source holds either the initial integer `0`,
`None`, or a `(board, column)` pair returned by `minValue`; only the pair case
survives the final `bestMove[1]` subscript, so the non-pair cases are modelled
as `none` and the function returns `none` exactly when the source raises
`TypeError` on that subscript.  `timeUp i` tells whether the wall clock check
after iteration `i` exceeds the 12-second budget. -/
def mmGo (brd : Board) (timeUp : Nat → Bool) :
    List Nat → Int → Option (Board × Nat) → Option Nat
  | [], _, best => best.map Prod.snd
  | i :: rest, bestSeverity, _best =>
    let r := minValue brd i (-99999999) 99999999 brd.player
    if r.2 ≥ 9999999 then r.1.map Prod.snd
    else if r.2 ≤ -9999999 then r.1.map Prod.snd
    else if timeUp i then r.1.map Prod.snd
    else mmGo brd timeUp rest (if r.2 > bestSeverity then r.2 else bestSeverity) r.1

/-- `AlphaBetaAgent.makeMove` from the source: iterates `i` over
`range(0, max_depth)`, calling `minValue(brd, i, -99999999, 99999999,
brd.player)` at each depth.  Returns `none` where the source would raise on a
`None`/integer subscript. -/
def makeMove (maxDepth : Nat) (brd : Board) (timeUp : Nat → Bool) : Option Nat :=
  mmGo brd timeUp (List.range maxDepth) 0 none

/-- Trace of the top-level search calls `makeMove` issues: one
`(depth, alpha, beta, rootPlayer)` tuple per loop iteration, following exactly
the control flow of `mmGo` (whose continuation never depends on
`bestSeverity` or `bestMove`). -/
def mmGoTrace (brd : Board) (timeUp : Nat → Bool) :
    List Nat → List (Nat × Int × Int × Nat)
  | [] => []
  | i :: rest =>
    let r := minValue brd i (-99999999) 99999999 brd.player
    (i, -99999999, 99999999, brd.player) ::
      (if r.2 ≥ 9999999 then []
       else if r.2 ≤ -9999999 then []
       else if timeUp i then []
       else mmGoTrace brd timeUp rest)

/-- The list of `(depth, alpha, beta, rootPlayer)` top-level calls issued by
`makeMove maxDepth brd timeUp`. -/
def makeMoveCalls (maxDepth : Nat) (brd : Board) (timeUp : Nat → Bool) :
    List (Nat × Int × Int × Nat) :=
  mmGoTrace brd timeUp (List.range maxDepth)

/-- Maximum accumulation over the successor list for unpruned minimax. -/
def mmMaxFold (recMin : Board → Int) : List (Board × Nat) → Int → Int
  | [], acc => acc
  | s :: rest, acc => mmMaxFold recMin rest (max acc (recMin s.1))

/-- Minimum accumulation over the successor list for unpruned minimax. -/
def mmMinFold (recMax : Board → Int) : List (Board × Nat) → Int → Int
  | [], acc => acc
  | s :: rest, acc => mmMinFold recMax rest (min acc (recMax s.1))

mutual
/-- Modelled from the spec: plain unpruned minimax over the identical tree
(§4.3) — a MAX node returns the evaluation at depth `0` or on an empty
successor list, and otherwise the maximum of the MIN values of its children. -/
def miniMaxMax : Board → Nat → Nat → Int
  | brd, 0, player => heuristics brd player
  | brd, m + 1, player =>
      if get_successors brd = [] then heuristics brd player
      else mmMaxFold (fun b => miniMaxMin b m player) (get_successors brd) (-999999999)

/-- Modelled from the spec: plain unpruned minimax over the identical tree
(§4.3) — a MIN node returns the evaluation at depth `0` or on an empty
successor list, and otherwise the minimum of the MAX values of its children. -/
def miniMaxMin : Board → Nat → Nat → Int
  | brd, 0, player => heuristics brd player
  | brd, m + 1, player =>
      if get_successors brd = [] then heuristics brd player
      else mmMinFold (fun b => miniMaxMax b m player) (get_successors brd) 999999999
end

/-- A 3-wide, 1-tall connect-2 board `[[2, 0, 0]]` with player 1 to move. -/
def b1 : Board := { board := [[2, 0, 0]], w := 3, h := 1, n := 2, player := 1 }

/-- A 2-wide, 1-tall connect-3 board `[[0, 0]]` with player 1 to move. -/
def b2 : Board := { board := [[0, 0]], w := 2, h := 1, n := 3, player := 1 }

/-- A 3x3 connect-3 board where player 1 already has two tokens in column 2
and wins immediately by dropping there. -/
def winBrd : Board :=
  { board := [[0, 0, 1], [0, 0, 1], [0, 0, 0]], w := 3, h := 3, n := 3, player := 1 }

/-- A 3x3 connect-3 board already won by player 1 (column 0), player 2 to move. -/
def wbA : Board :=
  { board := [[1, 0, 0], [1, 0, 0], [1, 0, 0]], w := 3, h := 3, n := 3, player := 2 }

/-- A 3x3 connect-3 board already won by player 2 (column 0), player 1 to move. -/
def wbB : Board :=
  { board := [[2, 0, 0], [2, 0, 0], [2, 0, 0]], w := 3, h := 3, n := 3, player := 1 }

/-- A clock oracle under which the 12-second budget is never exceeded. -/
def tNever : Nat → Bool := fun _ => false

/-- C1: the claim that the alpha-beta searcher always returns the unpruned
minimax score fails on the code: on the board `b1` at depth 1 with the
top-level window (alpha, beta) = (-99999999, 99999999), `minValue` returns 1
while plain unpruned minimax over the identical tree returns -4 — the
backwards break condition `worstMove <= beta` stops the loop after the first
successor and loses the smaller second value. -/
theorem minValue_differs_from_minimax :
    (minValue b1 1 (-99999999) 99999999 1).2 = 1 ∧ miniMaxMin b1 1 1 = -4 := by
  decide

/-- C2: the claim that `makeMove` always returns a legal column on a non-full
board for any maxDepth >= 1 fails on the code: with `max_depth = 1` the only
iteration runs `minValue` at depth 0, which returns `(None, score)`, and the
final `bestMove[1]` subscript raises `TypeError` (modelled as `none`) even
though the board `b2` has free columns. -/
theorem makeMove_fails_on_nonfull_board :
    b2.free_cols = [0, 1] ∧ makeMove 1 b2 tNever = none := by
  decide

/-- C3: the claim that the top-level call of the controller is a MAX node for the
side to move fails on the code: `makeMove` invokes `minValue` at the root, so
on `winBrd` — where dropping in column 2 wins immediately for the mover — the
top-level depth-1 call returns the first successor with score 3 and `makeMove`
returns column 0, while a MAX root at depth 1 proves the win (score
99999999, the WIN sentinel, via column 2). -/
theorem makeMove_root_is_min_node :
    makeMove 2 winBrd tNever = some 0 ∧
    (minValue winBrd 1 (-99999999) 99999999 1).2 = 3 ∧
    (maxValue winBrd 1 (-99999999) 99999999 1).2 = 99999999 := by
  decide

/-- C4 counterexample: the depth loop does not run over depths 1..maxDepth —
with `max_depth = 1` the single top-level call is issued at depth 0, not
depth 1. -/
theorem makeMoveCalls_starts_at_zero :
    makeMoveCalls 1 b2 tNever = [(0, -99999999, 99999999, 1)] ∧
    makeMoveCalls 1 b2 tNever ≠ [(1, -99999999, 99999999, 1)] := by
  decide

/-- C5: the claim that `minValue` stops expanding exactly when the running
minimum is <= alpha (and otherwise lowers beta) fails on the code: on `b1` at
depth 1 with alpha = -99999999 and beta = 99999999 the loop examines only 1 of
the 2 successors and returns the running minimum 1, even though 1 > alpha —
the code breaks on `worstMove <= beta` and never modifies beta. -/
theorem minValue_stops_against_beta :
    minValueIters b1 1 (-99999999) 99999999 1 = 1 ∧
    (get_successors b1).length = 2 ∧
    (minValue b1 1 (-99999999) 99999999 1).2 = 1 ∧
    ((-99999999 : Int) < 1) := by
  decide

/-- C10 counterexample: `minValue` called with beta = 99999999 on a board with
two successors at depth 3 examines both successors, not only the first: the
score 999999999 (the loop initialiser of a successor-less `minValue` child at
depth >= 1) propagates up through `maxValue` and is not <= beta. -/
theorem minValueIters_two_on_b2 :
    minValueIters b2 3 (-99999999) 99999999 1 = 2 ∧
    (get_successors b2).length = 2 := by
  decide
/-- Every run of the depth loop issues its top-level calls at a prefix of the
given depth list, each with the fixed window and the root player of the board. -/
theorem mmGoTrace_eq_take (brd : Board) (timeUp : Nat → Bool) (l : List Nat) :
    ∃ k, k ≤ l.length ∧ mmGoTrace brd timeUp l =
      (l.take k).map (fun i => (i, (-99999999 : Int), (99999999 : Int), brd.player)) := by
  induction l with
  | nil => exact ⟨0, by simp, by simp [mmGoTrace]⟩
  | cons i rest ih =>
    by_cases h1 : (minValue brd i (-99999999) 99999999 brd.player).2 ≥ 9999999
    · exact ⟨1, by simp, by simp [mmGoTrace, h1]⟩
    · by_cases h2 : (minValue brd i (-99999999) 99999999 brd.player).2 ≤ -9999999
      · exact ⟨1, by simp, by simp [mmGoTrace, h1, h2]⟩
      · by_cases h3 : timeUp i
        · exact ⟨1, by simp, by simp [mmGoTrace, h1, h2, h3]⟩
        · obtain ⟨k, hk, he⟩ := ih
          exact ⟨k + 1, by simpa using Nat.succ_le_succ hk,
            by simp [mmGoTrace, h1, h2, h3, he]⟩

/-- C4 (amended): `makeMove` runs its depth loop over depths 0 up to
maxDepth - 1 inclusive, in strictly increasing order (stopping early only on a
sentinel score or on time expiry), and issues every top-level call with
alpha = -99999999, beta = 99999999 and rootPlayer = the player to move of
the board. -/
theorem makeMoveCalls_shape (maxDepth : Nat) (brd : Board) (timeUp : Nat → Bool) :
    ∃ k, k ≤ maxDepth ∧ makeMoveCalls maxDepth brd timeUp =
      (List.range k).map (fun i => (i, (-99999999 : Int), (99999999 : Int), brd.player)) := by
  obtain ⟨k, hk, he⟩ := mmGoTrace_eq_take brd timeUp (List.range maxDepth)
  have hk2 : k ≤ maxDepth := by simpa using hk
  refine ⟨k, hk2, ?_⟩
  rw [makeMoveCalls, he, List.take_range]
  congr 2
  omega

/-- C10 (amended): whenever `minValue` is called with beta = 99999999, a
remaining depth of at least 1, at least one successor, and a first successor
whose recursive `maxValue` score is at most 99999999, it returns after
examining only its first successor, carrying that successor and its score. -/
theorem minValue_first_successor_only (brd : Board) (m : Nat) (alpha : Int)
    (player : Nat) (s : Board × Nat) (rest : List (Board × Nat))
    (hs : get_successors brd = s :: rest)
    (hle : (maxValue s.1 m alpha 99999999 player).2 ≤ 99999999) :
    minValueIters brd (m + 1) alpha 99999999 player = 1 ∧
    minValue brd (m + 1) alpha 99999999 player =
      (some s, (maxValue s.1 m alpha 99999999 player).2) := by
  have hlt : (maxValue s.1 m alpha 99999999 player).2 < 999999999 := by omega
  constructor
  · rw [minValueIters]
    rw [hs]
    simp only [minValueItersLoop]
    rw [if_pos hlt, if_pos hle]
  · rw [minValue]
    rw [hs]
    simp only [minLoop]
    rw [if_pos hlt, if_pos hlt, if_pos hle]

/-- C10 (witness): on the board `b1` at depth 1 with alpha = -99999999 and
beta = 99999999, the hypotheses hold concretely and `minValue` examines only
its first successor (column 1) and returns it with its score. -/
theorem minValue_first_successor_only_witness :
    minValueIters b1 1 (-99999999) 99999999 1 = 1 ∧
    minValue b1 1 (-99999999) 99999999 1 =
      (some (Board.add_token b1 1, 1),
        (maxValue (Board.add_token b1 1) 0 (-99999999) 99999999 1).2) :=
  minValue_first_successor_only b1 0 (-99999999) 1 (Board.add_token b1 1, 1)
    [(Board.add_token b1 2, 2)] (by decide) (by decide)
/-- C9: `get_successors` returns the empty sequence iff the board has no free
column; otherwise exactly one successor per free column in the ascending column order of the
collaborator, each being a clone of the input with a token dropped
in that column (the input itself, an immutable value here, is untouched). -/
theorem get_successors_ok (brd : Board) :
    (get_successors brd = [] ↔ brd.free_cols = []) ∧
    (get_successors brd).map Prod.snd = brd.free_cols ∧
    get_successors brd = brd.free_cols.map (fun col => (brd.add_token col, col)) ∧
    List.Pairwise (· < ·) brd.free_cols := by
  have h3 : get_successors brd = brd.free_cols.map (fun col => (brd.add_token col, col)) := by
    by_cases hf : brd.free_cols = [] <;> simp [get_successors, hf, Board.copy]
  refine ⟨?_, ?_, h3, ?_⟩
  · rw [h3]
    simp
  · rw [h3, List.map_map]
    exact List.map_id _
  · exact List.Pairwise.sublist (List.filter_sublist _) (List.pairwise_lt_range _)

/-- C6: if the board outcome equals the marker of the root player while the
opponent is to move, `heuristics` returns the WIN sentinel 99999999; if the
outcome equals the marker of the opponent while the root player is to move, it
returns the LOSS sentinel -99999999.  Both checks precede and short-circuit
the positional scan. -/
theorem heuristics_sentinels (brd : Board) (p : Nat) (hp : p = 1 ∨ p = 2) :
    (brd.get_outcome = p ∧ brd.player = (if p = 1 then 2 else 1) →
      heuristics brd p = 99999999) ∧
    (brd.get_outcome = (if p = 1 then 2 else 1) ∧ brd.player = p →
      heuristics brd p = -99999999) := by
  rcases hp with h | h <;> subst h <;>
    exact ⟨fun ⟨h1, h2⟩ => by simp [heuristics, h1, h2],
           fun ⟨h1, h2⟩ => by simp [heuristics, h1, h2]⟩

/-- C6 (witness): on the concrete boards `wbA` (outcome 1, player 2 to move)
and `wbB` (outcome 2, player 1 to move) the two sentinel cases fire. -/
theorem heuristics_sentinels_witness :
    heuristics wbA 1 = 99999999 ∧ heuristics wbB 1 = -99999999 :=
  ⟨(heuristics_sentinels wbA 1 (Or.inl rfl)).1 (by decide),
   (heuristics_sentinels wbB 1 (Or.inl rfl)).2 (by decide)⟩

/-- Modelled from the spec: the per-cell positional contribution of §4.1 —
an occupied cell lying on a still-completable line of the target length
scores +1 for the root player and -5 for the opponent; empty cells and cells
on no completable line contribute 0. -/
def specCellScore (brd : Board) (p : Nat) (i j : Nat) : Int :=
  if cellAt brd j i ≠ 0 ∧ is_any_line_at brd i j then
    if cellAt brd j i = p then 1
    else if cellAt brd j i = (if p = 1 then 2 else 1) then -5
    else 0
  else 0

/-- Modelled from the spec: the positional score of §4.1 — the sum of the
per-cell contributions over the whole grid. -/
def specPositional (brd : Board) (p : Nat) : Int :=
  ((List.range brd.w).map fun i =>
    ((List.range brd.h).map fun j => specCellScore brd p i j).sum).sum

/-- A left fold adding `f` over a list equals the starting value plus the sum
of the mapped list. -/
theorem foldl_add_int {α : Type} (f : α → Int) (l : List α) (a : Int) :
    l.foldl (fun acc x => acc + f x) a = a + (l.map f).sum := by
  induction l generalizing a with
  | nil => simp
  | cons x t ih => simp [ih, add_assoc]

/-- The `severity` loop computes the double sum of the per-cell code
contributions. -/
theorem severityLoop_eq_sum (brd : Board) (me opponent : Nat) :
    severityLoop brd me opponent =
      ((List.range brd.w).map fun i =>
        ((List.range brd.h).map fun j => heurCell brd me opponent i j).sum).sum := by
  rw [severityLoop]
  rw [show (fun (acc : Int) (i : Nat) =>
        (List.range brd.h).foldl (fun acc2 j => acc2 + heurCell brd me opponent i j) acc)
      = fun acc i =>
        acc + ((List.range brd.h).map fun j => heurCell brd me opponent i j).sum
    from funext fun acc => funext fun i => foldl_add_int _ _ _]
  rw [foldl_add_int (fun i =>
        ((List.range brd.h).map fun j => heurCell brd me opponent i j).sum)]
  simp

/-- C7: on a non-terminal board (undecided outcome), `heuristics` equals the
positional score of the spec: the sum over all occupied cells on a
still-completable line of +1 for cells of the root player and -5 for cells
of the opponent. -/
theorem heuristics_eq_specPositional (brd : Board) (p : Nat)
    (hp : p = 1 ∨ p = 2) (hout : brd.get_outcome = 0) :
    heuristics brd p = specPositional brd p := by
  have hcell1 : ∀ i j, heurCell brd 1 2 i j = specCellScore brd 1 i j := by
    intro i j
    unfold heurCell specCellScore
    by_cases h0 : cellAt brd j i = 0 <;>
      by_cases hl : is_any_line_at brd i j <;>
        by_cases h1 : cellAt brd j i = 1 <;>
          by_cases h2 : cellAt brd j i = 2 <;>
            simp_all
  have hcell2 : ∀ i j, heurCell brd 2 1 i j = specCellScore brd 2 i j := by
    intro i j
    unfold heurCell specCellScore
    by_cases h0 : cellAt brd j i = 0 <;>
      by_cases hl : is_any_line_at brd i j <;>
        by_cases h1 : cellAt brd j i = 1 <;>
          by_cases h2 : cellAt brd j i = 2 <;>
            simp_all
  rcases hp with h | h <;> subst h
  · simp only [heuristics, hout]
    norm_num
    rw [severityLoop_eq_sum, specPositional]
    simp only [hcell1]
  · simp only [heuristics, hout]
    norm_num
    rw [severityLoop_eq_sum, specPositional]
    simp only [hcell2]

/-- C7 (witness): on the concrete non-terminal board `b1`, `heuristics` and
the positional sum of the spec agree (both are -5). -/
theorem heuristics_eq_specPositional_witness :
    heuristics b1 1 = specPositional b1 1 ∧ heuristics b1 1 = -5 :=
  ⟨heuristics_eq_specPositional b1 1 (Or.inl rfl) (by decide), by decide⟩
/-- Exchange of the two player markers; empty cells and any other value are
left alone. -/
def swapMarker (c : Nat) : Nat := if c = 1 then 2 else if c = 2 then 1 else c

/-- Modelled from the spec: the color-swapped mirror of a board (§8 property
7) — player markers exchanged in every cell and the turn owner exchanged. -/
def mirror (brd : Board) : Board :=
  { brd with
    board := brd.board.map fun row => row.map swapMarker,
    player := swapMarker brd.player }

theorem swapMarker_zero : swapMarker 0 = 0 := rfl

theorem swapMarker_zero_iff (c : Nat) : swapMarker c = 0 ↔ c = 0 := by
  unfold swapMarker
  split_ifs <;> simp_all

theorem swapMarker_one_iff (c : Nat) : swapMarker c = 1 ↔ c = 2 := by
  unfold swapMarker
  split_ifs <;> simp_all

theorem swapMarker_two_iff (c : Nat) : swapMarker c = 2 ↔ c = 1 := by
  unfold swapMarker
  split_ifs <;> simp_all

theorem swapMarker_inj_iff (a b : Nat) : swapMarker a = swapMarker b ↔ a = b := by
  unfold swapMarker
  split_ifs <;> simp_all <;> omega

theorem mirror_w (brd : Board) : (mirror brd).w = brd.w := rfl

theorem mirror_h (brd : Board) : (mirror brd).h = brd.h := rfl

theorem mirror_n (brd : Board) : (mirror brd).n = brd.n := rfl

theorem mirror_player (brd : Board) : (mirror brd).player = swapMarker brd.player := rfl

/-- Pointwise-equal predicates give equal `List.all`. -/
theorem list_all_congr {α : Type} {l : List α} {p q : α → Bool}
    (h : ∀ a ∈ l, p a = q a) : l.all p = l.all q := by
  induction l with
  | nil => rfl
  | cons a t ih => simp_all

/-- Pointwise-equal predicates give equal `List.any`. -/
theorem list_any_congr {α : Type} {l : List α} {p q : α → Bool}
    (h : ∀ a ∈ l, p a = q a) : l.any p = l.any q := by
  induction l with
  | nil => rfl
  | cons a t ih => simp_all

/-- Pointwise-equal predicates give equal `List.find?`. -/
theorem list_find?_congr {α : Type} {l : List α} {p q : α → Bool}
    (h : ∀ a ∈ l, p a = q a) : l.find? p = l.find? q := by
  induction l with
  | nil => rfl
  | cons a t ih =>
    have ha : p a = q a := h a (by simp)
    by_cases hp : p a
    · rw [List.find?_cons_of_pos _ hp, List.find?_cons_of_pos _ (ha ▸ hp)]
    · rw [List.find?_cons_of_neg _ hp, List.find?_cons_of_neg _ (ha ▸ hp),
        ih fun a hm => h a (by simp [hm])]

/-- `getD` commutes with `map` when the default is mapped as well. -/
theorem getD_map_eq {α β : Type} (f : α → β) (l : List α) (j : Nat) (d : α) :
    (l.map f).getD j (f d) = f (l.getD j d) := by
  induction l generalizing j with
  | nil => simp
  | cons a t ih =>
    cases j with
    | zero => simp
    | succ jj => simp [ih jj]

theorem cellAt_mirror (brd : Board) (j i : Nat) :
    cellAt (mirror brd) j i = swapMarker (cellAt brd j i) := by
  show ((brd.board.map fun row => row.map swapMarker).getD j []).getD i 0
      = swapMarker ((brd.board.getD j []).getD i 0)
  have hrow : (brd.board.map fun row => row.map swapMarker).getD j []
      = (brd.board.getD j []).map swapMarker :=
    getD_map_eq (fun row => row.map swapMarker) brd.board j []
  rw [hrow]
  have := getD_map_eq swapMarker (brd.board.getD j []) i 0
  rwa [swapMarker_zero] at this

theorem cellAtI_mirror (brd : Board) (x y : Int) :
    cellAtI (mirror brd) x y = swapMarker (cellAtI brd x y) := by
  unfold cellAtI
  split_ifs with h
  · exact cellAt_mirror brd y.toNat x.toNat
  · rfl

theorem windowInB_mirror (brd : Board) (x y dx dy : Int) :
    windowInB (mirror brd) x y dx dy = windowInB brd x y dx dy := rfl

theorem windowCompatible_mirror_one (brd : Board) (x y dx dy : Int) :
    windowCompatible (mirror brd) x y dx dy 1 = windowCompatible brd x y dx dy 2 := by
  unfold windowCompatible
  rw [mirror_n]
  apply list_all_congr
  intro k _
  rw [Bool.eq_iff_iff]
  simp [cellAtI_mirror, swapMarker_zero_iff, swapMarker_one_iff]

theorem windowCompatible_mirror_two (brd : Board) (x y dx dy : Int) :
    windowCompatible (mirror brd) x y dx dy 2 = windowCompatible brd x y dx dy 1 := by
  unfold windowCompatible
  rw [mirror_n]
  apply list_all_congr
  intro k _
  rw [Bool.eq_iff_iff]
  simp [cellAtI_mirror, swapMarker_zero_iff, swapMarker_two_iff]

theorem goodWindow_mirror (brd : Board) (x y dx dy : Int) :
    goodWindow (mirror brd) x y dx dy = goodWindow brd x y dx dy := by
  unfold goodWindow
  rw [windowInB_mirror, windowCompatible_mirror_one, windowCompatible_mirror_two,
    Bool.or_comm]

theorem is_any_line_at_mirror (brd : Board) (x y : Nat) :
    is_any_line_at (mirror brd) x y = is_any_line_at brd x y := by
  unfold is_any_line_at
  apply list_any_congr
  intro d _
  rw [mirror_n]
  apply list_any_congr
  intro k _
  exact goodWindow_mirror brd _ _ d.1 d.2

theorem lineStartsAt_mirror (brd : Board) (x y : Nat) :
    lineStartsAt (mirror brd) x y = lineStartsAt brd x y := by
  unfold lineStartsAt
  rw [cellAt_mirror]
  have hne : (swapMarker (cellAt brd y x) != 0) = (cellAt brd y x != 0) := by
    rw [Bool.eq_iff_iff]
    simp [swapMarker_zero_iff]
  rw [hne]
  congr 1
  apply list_any_congr
  intro d _
  rw [windowInB_mirror, mirror_n]
  congr 1
  apply list_all_congr
  intro k _
  rw [Bool.eq_iff_iff]
  simp [cellAtI_mirror, swapMarker_inj_iff]

theorem free_cols_mirror (brd : Board) : (mirror brd).free_cols = brd.free_cols := by
  unfold Board.free_cols
  rw [mirror_w]
  apply List.filter_congr
  intro i _
  rw [mirror_h]
  apply list_any_congr
  intro j _
  rw [Bool.eq_iff_iff]
  simp [cellAt_mirror, swapMarker_zero_iff]

theorem positions_mirror (brd : Board) : positions (mirror brd) = positions brd := rfl

theorem get_outcome_mirror (brd : Board) :
    (mirror brd).get_outcome = swapMarker brd.get_outcome := by
  unfold Board.get_outcome
  rw [positions_mirror,
    list_find?_congr fun pr _ => lineStartsAt_mirror brd pr.1 pr.2]
  cases hf : (positions brd).find? fun pr => lineStartsAt brd pr.1 pr.2 with
  | some pr => exact cellAt_mirror brd pr.2 pr.1
  | none =>
    rw [free_cols_mirror]
    split_ifs <;> rfl

theorem heurCell_mirror_one (brd : Board) (i j : Nat) :
    heurCell (mirror brd) 2 1 i j = heurCell brd 1 2 i j := by
  unfold heurCell
  rw [cellAt_mirror, is_any_line_at_mirror]
  by_cases h0 : cellAt brd j i = 0 <;>
    by_cases h1 : cellAt brd j i = 1 <;>
      by_cases h2 : cellAt brd j i = 2 <;>
        simp_all [swapMarker_zero_iff, swapMarker_one_iff, swapMarker_two_iff]

theorem heurCell_mirror_two (brd : Board) (i j : Nat) :
    heurCell (mirror brd) 1 2 i j = heurCell brd 2 1 i j := by
  unfold heurCell
  rw [cellAt_mirror, is_any_line_at_mirror]
  by_cases h0 : cellAt brd j i = 0 <;>
    by_cases h1 : cellAt brd j i = 1 <;>
      by_cases h2 : cellAt brd j i = 2 <;>
        simp_all [swapMarker_zero_iff, swapMarker_one_iff, swapMarker_two_iff]

theorem severityLoop_mirror_one (brd : Board) :
    severityLoop (mirror brd) 2 1 = severityLoop brd 1 2 := by
  rw [severityLoop_eq_sum, severityLoop_eq_sum, mirror_w, mirror_h]
  simp only [heurCell_mirror_one]

theorem severityLoop_mirror_two (brd : Board) :
    severityLoop (mirror brd) 1 2 = severityLoop brd 2 1 := by
  rw [severityLoop_eq_sum, severityLoop_eq_sum, mirror_w, mirror_h]
  simp only [heurCell_mirror_two]

/-- C8: evaluating a board for one player equals evaluating its color-swapped
mirror (markers exchanged, turn owner exchanged, hence outcomes exchanged)
for the other player: `heuristics brd A = heuristics (mirror brd) B` for both
assignments of (A, B) to the two players. -/
theorem heuristics_mirror (brd : Board) :
    heuristics brd 1 = heuristics (mirror brd) 2 ∧
    heuristics brd 2 = heuristics (mirror brd) 1 := by
  constructor
  · simp only [heuristics, get_outcome_mirror, mirror_player]
    norm_num
    simp only [swapMarker_one_iff, swapMarker_two_iff, severityLoop_mirror_one]
  · simp only [heuristics, get_outcome_mirror, mirror_player]
    norm_num
    simp only [swapMarker_one_iff, swapMarker_two_iff, severityLoop_mirror_two]
